import Mathlib

/-!
Verification development for the OmniSearch-Mail bundle/export pipeline
(`server/routes.ts`).  The TypeScript source is shallowly embedded: strings
are Lean `String`s manipulated through their character lists, attachment
byte buffers are `List Nat`, and the JavaScript runtime facilities that the
route handlers call (the `Date` parser, the Gmail attachment fetcher,
`pdf-lib`'s PDF parser, `pdfkit`'s image embedder) are explicit functional
parameters collected in `JsEnv`, so every definition is executable and the
archive construction can be evaluated on concrete inputs.
-/

set_option maxRecDepth 100000

namespace OmniSearch

/-- Byte buffers (`Buffer` in the source) are modelled as lists of bytes. -/
abbrev Bytes := List Nat

/-! ## Character classes used by the route helpers -/

/-- Character set removed by `sanitizeFolderName`'s first regex,
`/[<>:"\/\\|?*]/g` in `server/routes.ts`. -/
def forbiddenChar (c : Char) : Bool :=
  c == '<' || c == '>' || c == ':' || c == '"' || c == '/' ||
  c == '\\' || c == '|' || c == '?' || c == '*'

/-- JavaScript's `\s` class, modelled over the ASCII whitespace characters
plus the no-break space.  (JS `\s` also covers the other Unicode space
code points; the inputs relevant here are covered by this set.) -/
def isJsSpace (c : Char) : Bool :=
  c == ' ' || c == '\t' || c == '\n' || c == '\r' ||
  c == '\x0b' || c == '\x0c' || c == ' '

/-! ## Regex-run replacement

`String.prototype.replace` with a pattern of the form `/X+/g` replaces each
maximal run of `X` characters with a single replacement character.
`replRunsAux p r inRun l` walks the list: a character satisfying `p` that
starts a run emits `r`, further run characters are dropped, all other
characters pass through. -/

def replRunsAux (p : Char → Bool) (r : Char) : Bool → List Char → List Char
  | _, [] => []
  | inRun, c :: cs =>
    if p c then
      if inRun then replRunsAux p r true cs
      else r :: replRunsAux p r true cs
    else c :: replRunsAux p r false cs

/-- Replace every maximal run of characters satisfying `p` by the single
character `r` (the `/\s+/g → '_'` and `/_+/g → '_'` passes). -/
def replRuns (p : Char → Bool) (r : Char) (l : List Char) : List Char :=
  replRunsAux p r false l

/-- Underscore test used by the `/_+/g` collapse pass. -/
def isUnderscore (c : Char) : Bool :=
  c == '_'

/-- One application of the `^_` alternative of `/^_|_$/g`: remove a single
leading underscore when present. -/
def dropLeadUnd (l : List Char) : List Char :=
  match l with
  | [] => []
  | c :: rest => if c = '_' then rest else c :: rest

/-- One application of the `_$` alternative of `/^_|_$/g`: remove a single
trailing underscore when present. -/
def dropTrailUnd (l : List Char) : List Char :=
  (dropLeadUnd l.reverse).reverse

/-- The full `/^_|_$/g` pass: the regex can consume at most one leading and
one trailing underscore. -/
def trimUnd (l : List Char) : List Char :=
  dropTrailUnd (dropLeadUnd l)

/-- Character-list body of `sanitizeFolderName` (`server/routes.ts`):
strip `<>:"/\|?*`, collapse whitespace runs to `_`, collapse underscore
runs, trim one leading/trailing underscore, truncate to 80. -/
def sanitizeChars (l : List Char) : List Char :=
  (trimUnd (replRuns isUnderscore '_'
    (replRuns isJsSpace '_' (l.filter (fun c => !forbiddenChar c))))).take 80

/-- Embedding of `sanitizeFolderName` from `server/routes.ts`; the trailing
`|| 'Unknown'` turns an empty result into the placeholder. -/
def sanitizeFolderName (name : String) : String :=
  let r := sanitizeChars name.data
  if r.isEmpty then "Unknown" else String.mk r

/-! ## Date formatting -/

/-- Rendering of `String(n).padStart(2, '0')`. -/
def padStart2 (t : String) : String :=
  if t.length < 2 then "0" ++ t else t

/-- Embedding of `formatDatePrefix` from `server/routes.ts`.  The JS `Date`
constructor is the parameter `jsDate`, returning `some (year, month0, day)`
for a parsable string and `none` for an Invalid Date.  The constructor
never throws, so the `catch` branch of the source (returning
'unknown-date') is unreachable; on an Invalid Date each getter is `NaN`
and the template literal renders it as the text "NaN". -/
def formatDatePrefix (jsDate : String → Option (Int × Nat × Nat))
    (dateStr : String) : String :=
  match jsDate dateStr with
  | some (y, m0, d) =>
      toString y ++ "-" ++ padStart2 (toString (m0 + 1)) ++ "-" ++
        padStart2 (toString d)
  | none => "NaN" ++ "-" ++ padStart2 "NaN" ++ "-" ++ padStart2 "NaN"

/-! ## Attachment filename helpers -/

/-- Characters after the last dot of the list (helper for `extOf`). -/
def afterLastDot (l : List Char) : List Char :=
  (l.reverse.takeWhile (fun c => c != '.')).reverse

/-- Embedding of the extension derivation
`name.includes('.') ? '.' + name.split('.').pop() : ''`. -/
def extOf (s : String) : String :=
  if s.data.contains '.' then "." ++ String.mk (afterLastDot s.data) else ""

/-- Embedding of `name.replace(/\.[^.]+$/, '')`: drop a final dot followed
by one or more non-dot characters, if present. -/
def stripLastExt (s : String) : String :=
  let r := s.data.reverse
  let run := r.takeWhile (fun c => c != '.')
  if run.length ≥ 1 && (r.drop run.length).head? == some '.' then
    String.mk ((r.drop (run.length + 1)).reverse)
  else s

/-- Character-wise embedding of `String.prototype.toLowerCase` (ASCII; the
relevant comparisons here are over ASCII mime types, patterns and
filenames). -/
def lowerStr (s : String) : String :=
  String.mk (s.data.map Char.toLower)

/-- Test that a character list consists of decimal digits only (`\d*`). -/
def allDigits (l : List Char) : Bool :=
  l.all (fun c => c.isDigit)

/-- Tail test for the `_?\d*$` part of the placeholder regexes: an optional
single underscore followed by digits only. -/
def optUndDigits (l : List Char) : Bool :=
  match l with
  | '_' :: rest => allDigits rest
  | l' => allDigits l'

/-- Embedding of `isGenericFilename` from `server/routes.ts`: lower-case the
name, strip the final extension, and test the stem against the placeholder
patterns `inline_?\d*`, `attachment_?\d*`, `noname`, `att\d+`, `unnamed`
(as a stem prefix), `image\d*`, `file_?\d*`. -/
def isGenericFilename (filename : String) : Bool :=
  let nameOnly := (stripLastExt (lowerStr filename)).data
  (nameOnly.take 6 == "inline".data && optUndDigits (nameOnly.drop 6)) ||
  (nameOnly.take 10 == "attachment".data && optUndDigits (nameOnly.drop 10)) ||
  (nameOnly == "noname".data) ||
  (nameOnly.take 3 == "att".data && !(nameOnly.drop 3).isEmpty &&
    allDigits (nameOnly.drop 3)) ||
  (nameOnly.take 7 == "unnamed".data) ||
  (nameOnly.take 5 == "image".data && allDigits (nameOnly.drop 5)) ||
  (nameOnly.take 4 == "file".data && optUndDigits (nameOnly.drop 4))

/-- Embedding of the attachment renaming step of the bundle loop
(`server/routes.ts`, inside `POST /api/download/bundle`): a generic
filename is replaced, when the item has a non-empty subject, by the
sanitized subject truncated to 60 characters plus the original
extension. -/
def cleanAttachmentName (filename subject : String) : String :=
  if isGenericFilename filename && !(subject == "") then
    (sanitizeFolderName subject).take 60 ++ extOf filename
  else filename

/-! ## EntityMatcher (`POST /api/query/run` enrichment loop) -/

/-- Suffix test mirroring `String.prototype.endsWith`. -/
def endsWithStr (s suf : String) : Bool :=
  decide (suf.data <:+ s.data)

/-- Two-character test mirroring `p.startsWith("*@")`. -/
def isWildcardPat (p : String) : Bool :=
  match p.data with
  | '*' :: '@' :: _ => true
  | _ => false

/-- Embedding of `p.substring(2)`. -/
def strDrop (n : Nat) (s : String) : String :=
  String.mk (s.data.drop n)

/-- Single pattern test from the enrichment loop of `POST /api/query/run`:
a wildcard pattern `*@domain` tests (case-sensitively) whether the address
ends with `@domain` or `.domain`; any other pattern is compared for
case-insensitive full equality. -/
def patternMatches (p addr : String) : Bool :=
  if isWildcardPat p then
    endsWithStr addr ("@" ++ strDrop 2 p) || endsWithStr addr ("." ++ strDrop 2 p)
  else lowerStr addr == lowerStr p

/-- One `(entityId, pattern)` row of the `email_mappings` table. -/
structure Mapping where
  entityId : String
  pattern : String
  deriving Repr, DecidableEq

/-- Embedding of the matching loop of `POST /api/query/run`: walk the
mappings in stored order, skip mappings outside the selected entity set,
and return the first entity whose pattern matches; `none` when no pattern
matches (entity name "Unknown" downstream). -/
def matchEntity (entityIds : List String) (mappings : List Mapping)
    (addr : String) : Option String :=
  match mappings with
  | [] => none
  | m :: rest =>
    if entityIds.contains m.entityId && patternMatches m.pattern addr then
      some m.entityId
    else matchEntity entityIds rest addr

/-- Embedding of `r.from.match(/<([^>]+)>/)?.[1] || r.from`: the first
bracketed address in a `From` header, else the raw value.  `fromScan`
searches for `<`, then one-or-more non-`>` characters, then `>`. -/
def fromScan : List Char → Option (List Char)
  | [] => none
  | '<' :: rest =>
    let inner := rest.takeWhile (fun c => c != '>')
    if inner.isEmpty then fromScan rest
    else if (rest.drop inner.length).head? == some '>' then some inner
    else fromScan rest
  | _ :: rest => fromScan rest

/-- Address extraction applied to the `From` header before matching. -/
def extractAddress (fromHeader : String) : String :=
  match fromScan fromHeader.data with
  | some inner => String.mk inner
  | none => fromHeader

/-! ## stripHtmlTags (`server/routes.ts`)

Each `.replace` call of the source is one scanning pass over the string:
at every position the pass tries its pattern; a match emits the
replacement and resumes after the matched characters (JS `/g` semantics,
leftmost match, no rescanning of the replacement).  `replacePass` runs one
such pass, with a fuel argument (the input length suffices, since every
step consumes at least one character). -/

def replacePass (m : List Char → Option (List Char)) (rep : List Char) :
    Nat → List Char → List Char
  | _, [] => []
  | 0, l => l
  | Nat.succ fuel, c :: cs =>
    match m (c :: cs) with
    | some rest => rep ++ replacePass m rep fuel rest
    | none => c :: replacePass m rep fuel cs

/-- Run one replacement pass over a whole character list. -/
def runPass (m : List Char → Option (List Char)) (rep : List Char)
    (l : List Char) : List Char :=
  replacePass m rep l.length l

/-- Case-insensitive literal match at the head of the list, returning the
remainder on success (`pat` is given lower-case). -/
def ciMatchAt (pat : List Char) (l : List Char) : Option (List Char) :=
  match pat, l with
  | [], rest => some rest
  | _ :: _, [] => none
  | p :: ps, c :: cs => if p = c.toLower then ciMatchAt ps cs else none

/-- Tail of the `<br\s*\/?>` pattern after the letters `br`: optional
whitespace, an optional slash, then `>`. -/
def brTagClose : List Char → Option (List Char)
  | [] => none
  | c :: cs =>
    if isJsSpace c then brTagClose cs
    else if c = '/' then
      match cs with
      | '>' :: r => some r
      | _ => none
    else if c = '>' then some cs
    else none

/-- Matcher for `/<br\s*\/?>/gi`. -/
def brTagAt : List Char → Option (List Char)
  | '<' :: c1 :: c2 :: rest =>
    if c1.toLower = 'b' && c2.toLower = 'r' then brTagClose rest else none
  | _ => none

/-- Scan for the closing `>` of a tag (the `[^>]+>` part of `/<[^>]+>/g`). -/
def tagInner : List Char → Option (List Char)
  | [] => none
  | c :: cs => if c = '>' then some cs else tagInner cs

/-- Matcher for `/<[^>]+>/g`: a `<`, at least one non-`>` character, `>`. -/
def tagAt : List Char → Option (List Char)
  | '<' :: c :: cs => if c = '>' then none else tagInner cs
  | _ => none

/-- Matcher for `/\n{3,}/g`, consuming the whole (maximal) newline run. -/
def nl3At (l : List Char) : Option (List Char) :=
  match l with
  | '\n' :: '\n' :: '\n' :: rest => some (rest.dropWhile (fun c => c = '\n'))
  | _ => none

/-- JS `String.prototype.trim` over our whitespace class. -/
def trimEnds (l : List Char) : List Char :=
  ((l.dropWhile isJsSpace).reverse.dropWhile isJsSpace).reverse

/-- Embedding of `stripHtmlTags` from `server/routes.ts`: the twelve
sequential `.replace` passes followed by `.trim()`.  The six HTML-entity
replacements are case-sensitive literal substitutions and use
`String.replace`. -/
def stripHtmlTags (html : String) : String :=
  let s1 := runPass brTagAt ['\n'] html.data
  let s2 := runPass (ciMatchAt "</p>".data) ['\n', '\n'] s1
  let s3 := runPass (ciMatchAt "</div>".data) ['\n'] s2
  let s4 := runPass (ciMatchAt "</li>".data) ['\n'] s3
  let s5 := runPass tagAt [] s4
  let s6 := (((((String.mk s5).replace "&nbsp;" " ").replace "&amp;" "&").replace
      "&lt;" "<").replace "&gt;" ">").replace "&quot;" "\""
  let s7 := s6.replace "&#39;" "'"
  let s8 := runPass nl3At ['\n', '\n'] s7.data
  String.mk (trimEnds s8)

/-! ## Data model of the bundle endpoint (`POST /api/download/bundle`) -/

/-- One attachment reference of a selected item (the `attachments` array
items of the bundle request schema). -/
structure AttachmentIn where
  id : String
  filename : String
  mimeType : String
  size : Nat
  deriving Repr, DecidableEq

/-- One selected item of the bundle request (`bundleSchema`). -/
structure Item where
  messageId : String
  accountIndex : Nat
  subject : String
  «from» : String
  «to» : String
  cc : String
  date : String
  bodyText : String
  bodyHtml : String
  entityName : Option String
  attachments : List AttachmentIn
  deriving Repr, DecidableEq

/-- Mirror of the `DownloadedAttachment` interface in `server/routes.ts`. -/
structure DownloadedAttachment where
  filename : String
  mimeType : String
  size : Nat
  buffer : Bytes
  isImage : Bool
  isPdf : Bool
  deriving Repr, DecidableEq

/-- Test for `/^image\/(png|jpe?g|gif|bmp|webp)$/i`. -/
def isImageMime (mimeType : String) : Bool :=
  let lower := lowerStr mimeType
  lower == "image/png" || lower == "image/jpeg" || lower == "image/jpg" ||
  lower == "image/gif" || lower == "image/bmp" || lower == "image/webp"

/-- Test for `/^application\/pdf$/i`. -/
def isPdfMime (mimeType : String) : Bool :=
  lowerStr mimeType == "application/pdf"

/-- The JavaScript runtime collaborators of the bundle endpoint, passed as
functions:
* `jsDate` — `new Date(string)` (`none` encodes an Invalid Date);
* `isoDate` — `new Date(string).toISOString()` (`none` encodes the throw on
  an Invalid Date, caught in `generateJsonRecord`);
* `fetchAtt` — `downloadAttachment(messageId, attachmentId, accountIndex)`
  (`none` encodes a thrown fetch error, caught in the bundle loop);
* `imgOk` — whether `pdfkit`'s `doc.image` accepts the buffer;
* `pdfLoad` — `pdf-lib`'s `PDFDocument.load` on an attachment buffer,
  returning the source page count (`none` encodes a parse failure);
* `basePdfOk` — whether `PDFDocument.load`/`save` succeed on the base
  document produced by `generateBasePdf`.  -/
structure JsEnv where
  jsDate : String → Option (Int × Nat × Nat)
  isoDate : String → Option String
  fetchAtt : String → String → Nat → Option Bytes
  imgOk : Bytes → Bool
  pdfLoad : Bytes → Option Nat
  basePdfOk : Bool

/-- Construction of one `DownloadedAttachment` from a successful fetch
(the body of the `try` block of the bundle loop's attachment loop). -/
def mkDownloaded (item : Item) (att : AttachmentIn) (buffer : Bytes) :
    DownloadedAttachment :=
  { filename := cleanAttachmentName att.filename item.subject
    mimeType := att.mimeType
    size := buffer.length
    buffer := buffer
    isImage := isImageMime att.mimeType
    isPdf := isPdfMime att.mimeType }

/-- The attachment loop of the bundle endpoint: fetch each attachment in
order; a fetch that throws (`none`) is logged and skipped, a success is
pushed onto `downloadedAttachments`. -/
def processAttachmentsGo (env : JsEnv) (item : Item) :
    List AttachmentIn → List DownloadedAttachment
  | [] => []
  | att :: rest =>
    match env.fetchAtt item.messageId att.id item.accountIndex with
    | none => processAttachmentsGo env item rest
    | some buffer => mkDownloaded item att buffer :: processAttachmentsGo env item rest

/-- The `downloadedAttachments` list built for one item. -/
def processAttachments (env : JsEnv) (item : Item) : List DownloadedAttachment :=
  processAttachmentsGo env item item.attachments

/-! ## generateBasePdf (pdfkit part of the combined document) -/

/-- Badge shown next to an attachment row on the metadata page. -/
def attachmentBadge (a : DownloadedAttachment) : String :=
  if a.isImage then "[image preview below]"
  else if a.isPdf then "[PDF preview below]"
  else "[separate file]"

/-- Observable content of the `pdfkit` document built by `generateBasePdf`:
the metadata header, the attachment listing rows (filename, size, badge),
the body text, and the image preview pages (filename, whether the embed
succeeded or fell back to the failure notice). -/
structure BasePdf where
  subjectLine : String
  headerFields : List (String × String)
  attachmentRows : List (String × Nat × String)
  body : String
  imagePages : List (String × Bool)
  deriving Repr, DecidableEq

/-- Embedding of `generateBasePdf` from `server/routes.ts`. -/
def generateBasePdf (env : JsEnv) (item : Item)
    (attachments : List DownloadedAttachment) : BasePdf :=
  { subjectLine := if item.subject == "" then "(no subject)" else item.subject
    headerFields :=
      ([("From", item.«from»), ("To", item.«to»), ("CC", item.cc),
        ("Date", item.date),
        ("Entity", match item.entityName with
                   | none => "Unknown"
                   | some n => if n == "" then "Unknown" else n)].filter
        (fun f => !(f.2 == "")))
    attachmentRows :=
      attachments.map (fun a => (a.filename, a.size, attachmentBadge a))
    body :=
      if !(item.bodyText == "") then item.bodyText
      else if !(stripHtmlTags item.bodyHtml == "") then stripHtmlTags item.bodyHtml
      else "(empty body)"
    imagePages :=
      (attachments.filter (fun a => a.isImage)).map
        (fun a => (a.filename, env.imgOk a.buffer)) }

/-! ## generateCombinedPdf (pdf-lib splicing) -/

/-- Embedding of `generateCombinedPdf` from `server/routes.ts`: the base
document plus, when there are PDF-typed attachments and the base document
parses, one spliced first page per PDF attachment whose buffer `pdf-lib`
can load, carrying the caption
`Preview: <name> (page 1 of <total>)`; a source that fails to load is
skipped, and a failure around the whole merge falls back to the base
document alone. -/
def generateCombinedPdf (env : JsEnv) (item : Item)
    (attachments : List DownloadedAttachment) : BasePdf × List String :=
  let base := generateBasePdf env item attachments
  let pdfAtts := attachments.filter (fun a => a.isPdf)
  if pdfAtts.isEmpty then (base, [])
  else if env.basePdfOk then
    (base, pdfAtts.filterMap (fun a =>
      (env.pdfLoad a.buffer).map (fun totalPages =>
        "Preview: " ++ a.filename ++ " (page 1 of " ++ toString totalPages ++ ")")))
  else (base, [])

/-! ## generateJsonRecord -/

/-- JSON values appearing in the combined record. -/
inductive JVal where
  | s : String → JVal
  | n : Nat → JVal
  | b : Bool → JVal
  | arr : List (List (String × JVal)) → JVal

/-- One element of the record's `attachments` array. -/
def jsonAttObj (a : DownloadedAttachment) : List (String × JVal) :=
  [("filename", JVal.s a.filename), ("mimeType", JVal.s a.mimeType),
   ("size", JVal.n a.size),
   ("previewInCombinedPdf", JVal.b (a.isImage || a.isPdf))]

/-- Embedding of `generateJsonRecord` from `server/routes.ts`, as the
key/value list of the object literal it returns (`JSON.stringify`
serializes exactly these keys in this order). -/
def generateJsonRecord (env : JsEnv) (item : Item)
    (attachments : List DownloadedAttachment) : List (String × JVal) :=
  [("messageId", JVal.s item.messageId),
   ("subject", JVal.s item.subject),
   ("from", JVal.s item.«from»),
   ("to", JVal.s item.«to»),
   ("cc", JVal.s item.cc),
   ("date", JVal.s item.date),
   ("dateISO", JVal.s ((env.isoDate item.date).getD "")),
   ("entity", JVal.s (match item.entityName with
                      | none => "Unknown"
                      | some n => if n == "" then "Unknown" else n)),
   ("bodyText", JVal.s (if !(item.bodyText == "") then item.bodyText
                        else stripHtmlTags item.bodyHtml)),
   ("attachments", JVal.arr (attachments.map jsonAttObj))]

/-! ## The archive assembly loop -/

/-- Possible contents of one archive entry. -/
inductive EntryContent where
  | pdf : BasePdf → List String → EntryContent
  | json : List (String × JVal) → EntryContent
  | raw : Bytes → EntryContent

/-- One archive entry, as handed to `archive.append(data, { name })`. -/
structure Entry where
  name : String
  content : EntryContent

/-- Lookup in the `fileCounters` record. -/
def countersGet (counters : List (String × Nat)) (key : String) : Option Nat :=
  match counters with
  | [] => none
  | (k, v) :: rest => if k == key then some v else countersGet rest key

/-- Update of the `fileCounters` record. -/
def countersSet (counters : List (String × Nat)) (key : String) (v : Nat) :
    List (String × Nat) :=
  match counters with
  | [] => [(key, v)]
  | (k, v') :: rest =>
    if k == key then (k, v) :: rest else (k, v') :: countersSet rest key v

/-- Archive entries produced for one item of the bundle loop, given the
collision-suffixed `baseFilename` and the shared name pieces. -/
def itemEntries (env : JsEnv) (item : Item) (entityFolder datePfx baseFilename : String) :
    List Entry :=
  let downloaded := processAttachments env item
  let combined := generateCombinedPdf env item downloaded
  [{ name := entityFolder ++ "/" ++ baseFilename ++ "_combined.pdf"
     content := EntryContent.pdf combined.1 combined.2 },
   { name := entityFolder ++ "/" ++ baseFilename ++ "_combined.json"
     content := EntryContent.json (generateJsonRecord env item downloaded) }] ++
  downloaded.map (fun att =>
    { name := entityFolder ++ "/" ++ datePfx ++ "_" ++
        (sanitizeFolderName (stripLastExt att.filename)).take 60 ++ extOf att.filename
      content := EntryContent.raw att.buffer })

/-- The per-item iteration of `POST /api/download/bundle`, threading the
`fileCounters` collision table: derive the entity folder, date prefix and
subject slug, apply the collision counter to the shared base name, then
append the combined PDF, the combined JSON and every successfully fetched
raw attachment. -/
def bundleGo (env : JsEnv) : List Item → List (String × Nat) → List Entry
  | [], _ => []
  | item :: rest, counters =>
    let entityFolder := sanitizeFolderName
      (match item.entityName with
       | none => "Unknown"
       | some n => if n == "" then "Unknown" else n)
    let datePfx := formatDatePrefix env.jsDate item.date
    let subjectSlug := (sanitizeFolderName
      (if item.subject == "" then "No_Subject" else item.subject)).take 50
    let base0 := datePfx ++ "_" ++ subjectSlug
    let fileKey := entityFolder ++ "/" ++ base0
    match countersGet counters fileKey with
    | some n =>
      itemEntries env item entityFolder datePfx (base0 ++ "_" ++ toString (n + 1)) ++
      bundleGo env rest (countersSet counters fileKey (n + 1))
    | none =>
      itemEntries env item entityFolder datePfx base0 ++
      bundleGo env rest (countersSet counters fileKey 0)

/-- All entries of the streamed archive for one bundle request. -/
def bundleEntries (env : JsEnv) (items : List Item) : List Entry :=
  bundleGo env items []

/-! ## Concrete test fixtures

A selected email from `billing@acme.com` with subject "March Invoice",
carrying one PDF attachment and one `.xlsx` attachment, together with a
runtime environment in which both fetches succeed, the PDF attachment
parses with 7 pages, and the base document parses. -/

def bytesA : Bytes := [1, 2, 3]

def bytesB : Bytes := [4, 5]

def attPdf : AttachmentIn :=
  { id := "a1", filename := "invoice.pdf", mimeType := "application/pdf", size := 100 }

def attXlsx : AttachmentIn :=
  { id := "a2", filename := "report.xlsx"
    mimeType := "application/vnd.openxmlformats-officedocument.spreadsheetml.sheet"
    size := 50 }

def itemTwoAtt : Item :=
  { messageId := "m1", accountIndex := 1, subject := "March Invoice"
    «from» := "Billing <billing@acme.com>", «to» := "me@example.com", cc := ""
    date := "2024-03-15", bodyText := "Hello", bodyHtml := ""
    entityName := some "Acme Corp", attachments := [attPdf, attXlsx] }

/-- The same email with no attachments (fixture for the collision-suffix
evaluation). -/
def itemNoAtt : Item := { itemTwoAtt with attachments := [] }

def envTest : JsEnv :=
  { jsDate := fun s => if s == "2024-03-15" then some (2024, 2, 15) else none
    isoDate := fun s =>
      if s == "2024-03-15" then some "2024-03-15T00:00:00.000Z" else none
    fetchAtt := fun _ aid _ =>
      if aid == "a1" then some bytesA else if aid == "a2" then some bytesB else none
    imgOk := fun _ => true
    pdfLoad := fun _ => some 7
    basePdfOk := true }

/-- The same runtime with a `pdf-lib` loader that fails on every buffer
(every source PDF is malformed). -/
def envNoPdf : JsEnv := { envTest with pdfLoad := fun _ => none }

/-- An 81-character input whose sanitized form is cut by the 80-character
truncation right after an underscore. -/
def longInput : String := String.mk (List.replicate 79 'a' ++ [' ', 'b'])

/-- Whether an archive entry is a combined PDF. -/
def entryIsCombinedPdf (e : Entry) : Bool :=
  match e.content with
  | EntryContent.pdf _ _ => true
  | _ => false

/-- Whether an archive entry is a raw attachment file. -/
def entryIsRaw (e : Entry) : Bool :=
  match e.content with
  | EntryContent.raw _ => true
  | _ => false

/-- Absence of two adjacent underscores (the shape invariant that the
`/_+/g` collapse pass establishes). -/
def noAdjUnd (a b : Char) : Prop := ¬(a = '_' ∧ b = '_')

end OmniSearch

namespace OmniSearch

/-! ## Supporting lemmas

Facts about the sanitization passes, the matcher loop and the bundle loop
that the claim theorems below build on. -/

theorem data_wildcard (d : String) : ("*@" ++ d).data = '*' :: '@' :: d.data := by
  simp [String.data_append]

theorem strDrop_wildcard (d : String) : strDrop 2 ("*@" ++ d) = d := by
  simp [strDrop, data_wildcard]

theorem endsWith_append (u suf : String) : endsWithStr (u ++ suf) suf = true := by
  simp [endsWithStr, String.data_append]

theorem matchEntity_eq_find (ids : List String) (ms : List Mapping) (a : String) :
    matchEntity ids ms a =
      (ms.find? (fun m => ids.contains m.entityId && patternMatches m.pattern a)).map
        Mapping.entityId := by
  induction ms with
  | nil => rfl
  | cons m rest ih =>
    rw [show matchEntity ids (m :: rest) a =
      (if ids.contains m.entityId && patternMatches m.pattern a then some m.entityId
       else matchEntity ids rest a) from rfl]
    rw [List.find?_cons]
    cases h : (ids.contains m.entityId && patternMatches m.pattern a) with
    | true => simp [h]
    | false => simp [h, ih]

theorem itemEntries_filter_pdf (env : JsEnv) (item : Item) (f d b : String) :
    ((itemEntries env item f d b).filter entryIsCombinedPdf).length = 1 := by
  simp [itemEntries, entryIsCombinedPdf, List.filter_append, List.filter_map]

theorem itemEntries_filter_raw (env : JsEnv) (item : Item) (f d b : String) :
    ((itemEntries env item f d b).filter entryIsRaw).length =
      (processAttachments env item).length := by
  simp [itemEntries, entryIsRaw, List.filter_append, List.filter_map]

theorem bundleGo_counts (env : JsEnv) (items : List Item) :
    ∀ counters,
      ((bundleGo env items counters).filter entryIsCombinedPdf).length = items.length ∧
      ((bundleGo env items counters).filter entryIsRaw).length =
        (items.map (fun it => (processAttachments env it).length)).sum := by
  induction items with
  | nil => intro counters; simp [bundleGo]
  | cons item rest ih =>
    intro counters
    rw [bundleGo]
    cases h : countersGet counters
      (sanitizeFolderName
        (match item.entityName with
         | none => "Unknown"
         | some n => if n == "" then "Unknown" else n) ++ "/" ++
       (formatDatePrefix env.jsDate item.date ++ "_" ++
        (sanitizeFolderName
          (if item.subject == "" then "No_Subject" else item.subject)).take 50)) with
    | none =>
      simp [List.filter_append, itemEntries_filter_pdf, itemEntries_filter_raw, ih]
      omega
    | some n =>
      simp [List.filter_append, itemEntries_filter_pdf, itemEntries_filter_raw, ih]
      omega

theorem processGo_filterMap (env : JsEnv) (item : Item) (l : List AttachmentIn) :
    processAttachmentsGo env item l =
      l.filterMap (fun att =>
        (env.fetchAtt item.messageId att.id item.accountIndex).map
          (mkDownloaded item att)) := by
  induction l with
  | nil => rfl
  | cons att rest ih =>
    rw [processAttachmentsGo, List.filterMap_cons]
    cases h : env.fetchAtt item.messageId att.id item.accountIndex with
    | none => simp [h, ih]
    | some buffer => simp [h, ih]

theorem combinedPdf_fallback (env : JsEnv) (item : Item)
    (atts : List DownloadedAttachment) (h : ∀ b, env.pdfLoad b = none) :
    generateCombinedPdf env item atts = (generateBasePdf env item atts, []) := by
  rw [generateCombinedPdf]
  cases he : (atts.filter (fun a => a.isPdf)).isEmpty with
  | true => simp [he]
  | false =>
    cases hb : env.basePdfOk with
    | true => simp [he, hb, h]
    | false => simp [he, hb]

theorem replRunsAux_length_le (p : Char → Bool) (r : Char) :
    ∀ (b : Bool) (l : List Char), (replRunsAux p r b l).length ≤ l.length := by
  intro b l
  induction l generalizing b with
  | nil => simp [replRunsAux]
  | cons c cs ih =>
    rw [replRunsAux]
    by_cases hc : p c = true
    · cases b with
      | true => simp [hc]; exact Nat.le_succ_of_le (ih true)
      | false => simp [hc]; exact ih true
    · simp at hc
      simp [hc]
      exact ih false

theorem mem_replRunsAux (p : Char → Bool) (r : Char) :
    ∀ (b : Bool) (l : List Char) (c : Char), c ∈ replRunsAux p r b l →
      (c ∈ l ∧ p c = false) ∨ c = r := by
  intro b l
  induction l generalizing b with
  | nil => simp [replRunsAux]
  | cons c0 cs ih =>
    intro c hc
    rw [replRunsAux] at hc
    by_cases h0 : p c0 = true
    · cases b with
      | true =>
        simp [h0] at hc
        rcases ih true c hc with ⟨h1, h2⟩ | h3
        · exact Or.inl ⟨List.mem_cons_of_mem c0 h1, h2⟩
        · exact Or.inr h3
      | false =>
        simp [h0] at hc
        rcases hc with h | h
        · exact Or.inr h
        · rcases ih true c h with ⟨h1, h2⟩ | h3
          · exact Or.inl ⟨List.mem_cons_of_mem c0 h1, h2⟩
          · exact Or.inr h3
    · simp at h0
      simp [h0] at hc
      rcases hc with h | h
      · rw [h]; exact Or.inl ⟨List.mem_cons_self c0 cs, h0⟩
      · rcases ih false c h with ⟨h1, h2⟩ | h3
        · exact Or.inl ⟨List.mem_cons_of_mem c0 h1, h2⟩
        · exact Or.inr h3

theorem replRunsAux_id (p : Char → Bool) (r : Char) :
    ∀ (b : Bool) (l : List Char), (∀ c ∈ l, p c = false) →
      replRunsAux p r b l = l := by
  intro b l
  induction l generalizing b with
  | nil => intro _; rfl
  | cons c cs ih =>
    intro h
    have hc : p c = false := h c (List.mem_cons_self c cs)
    rw [replRunsAux]
    simp [hc]
    exact ih false (fun x hx => h x (List.mem_cons_of_mem c hx))

theorem head_replRunsAux_true (l : List Char) :
    ∀ c, (replRunsAux isUnderscore '_' true l).head? = some c → c ≠ '_' := by
  induction l with
  | nil => intro c hc; simp [replRunsAux] at hc
  | cons c0 cs ih =>
    intro c hc
    rw [replRunsAux] at hc
    by_cases h0 : isUnderscore c0 = true
    · simp [h0] at hc
      exact ih c hc
    · simp at h0
      simp [h0] at hc
      intro he
      have hc0 : c0 = '_' := hc.trans he
      rw [hc0] at h0
      simp [isUnderscore] at h0

theorem chain_replRunsAux (l : List Char) :
    ∀ b, List.Chain' noAdjUnd (replRunsAux isUnderscore '_' b l) := by
  induction l with
  | nil => intro b; simp [replRunsAux]
  | cons c0 cs ih =>
    intro b
    rw [replRunsAux]
    by_cases h0 : isUnderscore c0 = true
    · cases b with
      | true => simp [h0]; exact ih true
      | false =>
        simp [h0]
        rw [List.chain'_cons']
        refine ⟨?_, ih true⟩
        intro y hy
        have := head_replRunsAux_true cs y hy
        exact fun ⟨_, hy2⟩ => this hy2
    · simp at h0
      simp [h0]
      rw [List.chain'_cons']
      refine ⟨?_, ih false⟩
      intro y hy
      intro hcon
      rcases hcon with ⟨h1, _⟩
      rw [h1] at h0
      simp [isUnderscore] at h0

theorem replRunsAux_true_cons (c : Char) (cs : List Char)
    (h : isUnderscore c = false) :
    replRunsAux isUnderscore '_' true (c :: cs) =
      c :: replRunsAux isUnderscore '_' false cs := by
  rw [replRunsAux]
  simp [h]

theorem replRunsAux_chain_id (l : List Char) (hch : List.Chain' noAdjUnd l) :
    replRunsAux isUnderscore '_' false l = l := by
  induction l with
  | nil => rfl
  | cons c cs ih =>
    by_cases hc : c = '_'
    · subst hc
      rw [replRunsAux]
      simp [isUnderscore]
      cases cs with
      | nil => rfl
      | cons c2 cs2 =>
        have hrel : noAdjUnd '_' c2 := (List.chain'_cons'.mp hch).1 c2 rfl
        have hc2 : c2 ≠ '_' := fun he => hrel ⟨rfl, he⟩
        have hc2' : isUnderscore c2 = false := by simp [isUnderscore, hc2]
        rw [replRunsAux_true_cons c2 cs2 hc2']
        have htail := ih (hch.tail)
        rw [replRunsAux] at htail
        simp [isUnderscore, hc2] at htail
        rw [htail]
    · have hc' : isUnderscore c = false := by simp [isUnderscore, hc]
      rw [replRunsAux]
      simp [hc']
      exact ih hch.tail

theorem dropLeadUnd_length_le (l : List Char) :
    (dropLeadUnd l).length ≤ l.length := by
  cases l with
  | nil => simp [dropLeadUnd]
  | cons c rest =>
    rw [dropLeadUnd]
    by_cases hc : c = '_'
    · simp [hc]
    · simp [hc]

theorem trimUnd_length_le (l : List Char) : (trimUnd l).length ≤ l.length := by
  rw [trimUnd, dropTrailUnd]
  calc ((dropLeadUnd (dropLeadUnd l).reverse).reverse).length
      = (dropLeadUnd (dropLeadUnd l).reverse).length := List.length_reverse _
    _ ≤ (dropLeadUnd l).reverse.length := dropLeadUnd_length_le _
    _ = (dropLeadUnd l).length := List.length_reverse _
    _ ≤ l.length := dropLeadUnd_length_le l

theorem mem_dropLeadUnd (l : List Char) (c : Char) (h : c ∈ dropLeadUnd l) :
    c ∈ l := by
  cases l with
  | nil => simp [dropLeadUnd] at h
  | cons c0 rest =>
    rw [dropLeadUnd] at h
    by_cases hc : c0 = '_'
    · simp [hc] at h
      exact List.mem_cons_of_mem c0 h
    · simp [hc] at h
      simpa using h

theorem mem_trimUnd (l : List Char) (c : Char) (h : c ∈ trimUnd l) : c ∈ l := by
  rw [trimUnd, dropTrailUnd] at h
  rw [List.mem_reverse] at h
  have h2 := mem_dropLeadUnd _ _ h
  rw [List.mem_reverse] at h2
  exact mem_dropLeadUnd _ _ h2

theorem dropLeadUnd_id (l : List Char) (h : l.head? ≠ some '_') :
    dropLeadUnd l = l := by
  cases l with
  | nil => rfl
  | cons c rest =>
    rw [dropLeadUnd]
    by_cases hc : c = '_'
    · exact absurd (by rw [hc]; rfl) h
    · simp [hc]

theorem dropTrailUnd_id (l : List Char) (h : l.getLast? ≠ some '_') :
    dropTrailUnd l = l := by
  rw [dropTrailUnd, dropLeadUnd_id]
  · exact List.reverse_reverse l
  · rw [List.head?_reverse]
    exact h

theorem chain_dropLeadUnd (l : List Char) (h : List.Chain' noAdjUnd l) :
    List.Chain' noAdjUnd (dropLeadUnd l) := by
  cases l with
  | nil => simp [dropLeadUnd]
  | cons c rest =>
    rw [dropLeadUnd]
    by_cases hc : c = '_'
    · simp [hc]; exact h.tail
    · simp [hc]; exact h

theorem noAdjUnd_symm (a b : Char) (h : noAdjUnd a b) : noAdjUnd b a :=
  fun ⟨h1, h2⟩ => h ⟨h2, h1⟩

theorem chain_reverse_noAdj (l : List Char) (h : List.Chain' noAdjUnd l) :
    List.Chain' noAdjUnd l.reverse := by
  rw [List.chain'_reverse]
  exact h.imp (fun a b hab => noAdjUnd_symm a b hab)

theorem chain_dropTrailUnd (l : List Char) (h : List.Chain' noAdjUnd l) :
    List.Chain' noAdjUnd (dropTrailUnd l) := by
  rw [dropTrailUnd]
  exact chain_reverse_noAdj _ (chain_dropLeadUnd _ (chain_reverse_noAdj _ h))

theorem head_dropLeadUnd (l : List Char) (h : List.Chain' noAdjUnd l) :
    (dropLeadUnd l).head? ≠ some '_' := by
  cases l with
  | nil => simp [dropLeadUnd]
  | cons c rest =>
    rw [dropLeadUnd]
    by_cases hc : c = '_'
    · simp [hc]
      cases rest with
      | nil => simp
      | cons c2 rest2 =>
        have hrel : noAdjUnd c c2 := (List.chain'_cons'.mp h).1 c2 rfl
        rw [hc] at hrel
        have : c2 ≠ '_' := fun he => hrel ⟨rfl, he⟩
        simpa using this
    · simp [hc]

theorem head_dropTrailUnd_ne (l : List Char) (h : l.head? ≠ some '_') :
    (dropTrailUnd l).head? ≠ some '_' := by
  cases l with
  | nil => simp [dropTrailUnd, dropLeadUnd]
  | cons c rest =>
    have hc : c ≠ '_' := by simpa using h
    rw [dropTrailUnd, List.reverse_cons]
    cases hr : rest.reverse with
    | nil =>
      simp [hr, dropLeadUnd, hc]
    | cons d ds =>
      by_cases hd : d = '_'
      · simp [dropLeadUnd, hd, List.reverse_append, hc]
      · simp [dropLeadUnd, hd, List.reverse_append, hc]

theorem getLast_dropTrailUnd (l : List Char) (h : List.Chain' noAdjUnd l) :
    (dropTrailUnd l).getLast? ≠ some '_' := by
  rw [dropTrailUnd]
  rw [← List.head?_reverse]
  rw [List.reverse_reverse]
  exact head_dropLeadUnd _ (chain_reverse_noAdj _ h)

theorem sanitizeChars_fix (t : List Char)
    (hforb : ∀ c ∈ t, forbiddenChar c = false)
    (hsp : ∀ c ∈ t, isJsSpace c = false)
    (hch : List.Chain' noAdjUnd t)
    (hh : t.head? ≠ some '_')
    (hl : t.getLast? ≠ some '_')
    (hlen : t.length ≤ 80) :
    sanitizeChars t = t := by
  simp only [sanitizeChars, replRuns]
  rw [List.filter_eq_self.mpr (fun c hc => by simp [hforb c hc])]
  rw [replRunsAux_id isJsSpace '_' false t hsp]
  rw [replRunsAux_chain_id t hch]
  rw [trimUnd, dropLeadUnd_id t hh, dropTrailUnd_id t hl]
  exact List.take_of_length_le hlen

theorem sanitizeChars_idem (l : List Char) (h : l.length ≤ 80) :
    sanitizeChars (sanitizeChars l) = sanitizeChars l := by
  have hlen4 : (trimUnd (replRuns isUnderscore '_' (replRuns isJsSpace '_'
      (l.filter (fun c => !forbiddenChar c))))).length ≤ 80 := by
    refine le_trans (trimUnd_length_le _) (le_trans (replRunsAux_length_le _ _ _ _)
      (le_trans (replRunsAux_length_le _ _ _ _)
        (le_trans (List.length_filter_le _ _) h)))
  have hout : sanitizeChars l = trimUnd (replRuns isUnderscore '_'
      (replRuns isJsSpace '_' (l.filter (fun c => !forbiddenChar c)))) := by
    simp only [sanitizeChars]
    exact List.take_of_length_le hlen4
  have hchain3 : List.Chain' noAdjUnd (replRuns isUnderscore '_'
      (replRuns isJsSpace '_' (l.filter (fun c => !forbiddenChar c)))) :=
    chain_replRunsAux _ false
  rw [hout]
  apply sanitizeChars_fix
  · intro c hc
    have hc3 := mem_trimUnd _ _ hc
    rcases mem_replRunsAux _ _ _ _ _ hc3 with ⟨hc2, _⟩ | hceq
    · rcases mem_replRunsAux _ _ _ _ _ hc2 with ⟨hc1, _⟩ | hceq2
      · have := List.of_mem_filter hc1
        simpa using this
      · rw [hceq2]; decide
    · rw [hceq]; decide
  · intro c hc
    have hc3 := mem_trimUnd _ _ hc
    rcases mem_replRunsAux _ _ _ _ _ hc3 with ⟨hc2, _⟩ | hceq
    · rcases mem_replRunsAux _ _ _ _ _ hc2 with ⟨_, hsp1⟩ | hceq2
      · exact hsp1
      · rw [hceq2]; decide
    · rw [hceq]; decide
  · rw [trimUnd]
    exact chain_dropTrailUnd _ (chain_dropLeadUnd _ hchain3)
  · rw [trimUnd]
    exact head_dropTrailUnd_ne _ (head_dropLeadUnd _ hchain3)
  · rw [trimUnd]
    exact getLast_dropTrailUnd _ (chain_dropLeadUnd _ hchain3)
  · exact hlen4

/-! ## Claim theorems -/

/-- C1: the bundle endpoint, evaluated at an email with two attachments
(one PDF-typed, one `.xlsx`), writes 4 archive entries — a single
per-email combined PDF/JSON pair named `<date>_<subjectSlug>_combined.*`
plus one raw file per attachment named `<date>_<attachmentSlug>.<ext>` —
not the 6 per-attachment triplet entries the claim describes. -/
theorem c1_two_attachment_bundle_eval :
    (bundleEntries envTest [itemTwoAtt]).map Entry.name =
      ["Acme_Corp/2024-03-15_March_Invoice_combined.pdf",
       "Acme_Corp/2024-03-15_March_Invoice_combined.json",
       "Acme_Corp/2024-03-15_invoice.pdf",
       "Acme_Corp/2024-03-15_report.xlsx"] ∧
    ((bundleEntries envTest [itemTwoAtt]).map Entry.name).length = 4 := by
  exact ⟨rfl, rfl⟩

/-- C2: in the same build, the raw attachment file is written under the
stem `2024-03-15_invoice` while its item's combined pair is written under
the stem `2024-03-15_March_Invoice`: the raw file and the combined pair do
not share a base filename stem. -/
theorem c2_raw_vs_combined_stem_eval :
    ((bundleEntries envTest [itemTwoAtt]).map Entry.name).get? 0 =
      some ("Acme_Corp/" ++ "2024-03-15_March_Invoice" ++ "_combined.pdf") ∧
    ((bundleEntries envTest [itemTwoAtt]).map Entry.name).get? 2 =
      some ("Acme_Corp/" ++ "2024-03-15_invoice" ++ ".pdf") ∧
    ("2024-03-15_invoice" : String) ≠ "2024-03-15_March_Invoice" := by
  refine ⟨rfl, rfl, by decide⟩

/-- C3: `generateJsonRecord` emits, for every unit, exactly the ten fixed
keys of its object literal; no record — attachment-bearing or not — ever
contains a `linkedAttachmentFile` field. -/
theorem c3_json_record_keys (env : JsEnv) (item : Item)
    (atts : List DownloadedAttachment) :
    (generateJsonRecord env item atts).map Prod.fst =
      ["messageId", "subject", "from", "to", "cc", "date", "dateISO",
       "entity", "bodyText", "attachments"] ∧
    "linkedAttachmentFile" ∉ (generateJsonRecord env item atts).map Prod.fst := by
  refine ⟨rfl, ?_⟩
  rw [show (generateJsonRecord env item atts).map Prod.fst =
    ["messageId", "subject", "from", "to", "cc", "date", "dateISO",
     "entity", "bodyText", "attachments"] from rfl]
  decide

/-- C4: three items deriving the same `(entityFolder, baseName)` key
produce combined pairs suffixed with nothing, `_1`, and `_2` respectively
(the source increments its counter starting from 0), not the claimed `_2`
and `_3`; and no raw-file name ever receives the suffix. -/
theorem c4_collision_suffix_eval :
    (bundleEntries envTest [itemNoAtt, itemNoAtt, itemNoAtt]).map Entry.name =
      ["Acme_Corp/2024-03-15_March_Invoice_combined.pdf",
       "Acme_Corp/2024-03-15_March_Invoice_combined.json",
       "Acme_Corp/2024-03-15_March_Invoice_1_combined.pdf",
       "Acme_Corp/2024-03-15_March_Invoice_1_combined.json",
       "Acme_Corp/2024-03-15_March_Invoice_2_combined.pdf",
       "Acme_Corp/2024-03-15_March_Invoice_2_combined.json"] := by
  exact rfl

/-- C5 counterexample: wildcard matching in the enrichment loop compares
raw characters — `*@acme.com` matches `user@acme.com` but not
`user@ACME.COM`, so the claimed case-insensitive wildcard matching fails
and the matcher returns `none` for the upper-cased address. -/
theorem c5_wildcard_case_counterexample :
    patternMatches "*@acme.com" "user@acme.com" = true ∧
    patternMatches "*@acme.com" "user@ACME.COM" = false ∧
    matchEntity ["e1"] [{ entityId := "e1", pattern := "*@acme.com" }]
      "user@ACME.COM" = none := by
  decide

/-- C7: `formatDatePrefix` is total — a parsable date renders as
`YYYY-MM-DD` (zero-padded month and day), and every unparsable date
renders as the one fixed string "NaN-NaN-NaN" (the `Date` constructor
never throws; an Invalid Date's getters are `NaN`). -/
theorem c7_date_prefix_total (jsDate : String → Option (Int × Nat × Nat))
    (s : String) :
    (∀ y m0 d, jsDate s = some (y, m0, d) →
      formatDatePrefix jsDate s =
        toString y ++ "-" ++ padStart2 (toString (m0 + 1)) ++ "-" ++
          padStart2 (toString d)) ∧
    (jsDate s = none → formatDatePrefix jsDate s = "NaN-NaN-NaN") := by
  constructor
  · intro y m0 d h
    simp [formatDatePrefix, h]
  · intro h
    simp [formatDatePrefix, h]
    rfl

/-- C7 witness: evaluation of both branches at concrete inputs. -/
theorem c7_date_prefix_total_witness :
    formatDatePrefix (fun _ => none) "not a date" = "NaN-NaN-NaN" ∧
    formatDatePrefix
      (fun s => if s == "2024-03-15" then some (2024, 2, 15) else none)
      "2024-03-15" = "2024-03-15" := by
  constructor
  · exact (c7_date_prefix_total (fun _ => none) "not a date").2 rfl
  · have h := (c7_date_prefix_total
      (fun s => if s == "2024-03-15" then some ((2024 : Int), (2 : Nat), (15 : Nat)) else none)
      "2024-03-15").1 2024 2 15 (by decide)
    exact h.trans (by decide)

/-- C9: the attachment renaming step returns the sanitized subject
(truncated to 60 characters) plus the original extension exactly for
generic filenames with a non-empty subject, and returns non-generic
filenames unchanged; the placeholder set contains the `inline`,
`attachment`, `noname`, `att<digits>`, `unnamed*`, `image<digits>` and
`file<digits>` stems and excludes ordinary names. -/
theorem c9_clean_attachment_name :
    (∀ f s, isGenericFilename f = true → s ≠ "" →
      cleanAttachmentName f s = (sanitizeFolderName s).take 60 ++ extOf f) ∧
    (∀ f s, isGenericFilename f = false → cleanAttachmentName f s = f) ∧
    isGenericFilename "inline_1.pdf" = true ∧
    isGenericFilename "attachment.pdf" = true ∧
    isGenericFilename "noname.jpg" = true ∧
    isGenericFilename "att12.png" = true ∧
    isGenericFilename "unnamed_scan.dat" = true ∧
    isGenericFilename "image3.gif" = true ∧
    isGenericFilename "file_2.bin" = true ∧
    isGenericFilename "invoice-march.pdf" = false := by
  refine ⟨?_, ?_, by decide, by decide, by decide, by decide, by decide,
    by decide, by decide, by decide⟩
  · intro f s hg hs
    simp [cleanAttachmentName, hg, hs]
  · intro f s hg
    simp [cleanAttachmentName, hg]

/-- C9 witness: a generic inline attachment on the "March Invoice" email is
renamed to the sanitized subject plus its extension. -/
theorem c9_clean_attachment_name_witness :
    cleanAttachmentName "inline_1.pdf" "March Invoice" = "March_Invoice.pdf" := by
  have h := c9_clean_attachment_name.1 "inline_1.pdf" "March Invoice"
    (by decide) (by decide)
  exact h.trans (by decide)

/-- C5 amended: the first matching pattern in stored order wins and no
match yields `none`; a wildcard pattern `*@domain` matches exactly when
the address ends — case-sensitively, raw characters — with `@domain` or
`.domain` (so `user@domain` and `user@sub.domain` match), while a literal
pattern matches on case-insensitive full-address equality. -/
theorem c5_entity_matcher_amended :
    (∀ u d : String, patternMatches ("*@" ++ d) (u ++ "@" ++ d) = true) ∧
    (∀ u sub d : String,
      patternMatches ("*@" ++ d) (u ++ "@" ++ sub ++ "." ++ d) = true) ∧
    (∀ p a : String, isWildcardPat p = true →
      patternMatches p a =
        (endsWithStr a ("@" ++ strDrop 2 p) || endsWithStr a ("." ++ strDrop 2 p))) ∧
    (∀ p a : String, isWildcardPat p = false →
      patternMatches p a = (lowerStr a == lowerStr p)) ∧
    (∀ ids ms a, matchEntity ids ms a =
      (ms.find? (fun m => ids.contains m.entityId && patternMatches m.pattern a)).map
        Mapping.entityId) := by
  refine ⟨?_, ?_, ?_, ?_, matchEntity_eq_find⟩
  · intro u d
    have hw : isWildcardPat ("*@" ++ d) = true := by
      simp [isWildcardPat, data_wildcard]
    simp only [patternMatches, hw, if_true, strDrop_wildcard]
    have hs : u ++ "@" ++ d = u ++ ("@" ++ d) := by rw [String.append_assoc]
    rw [hs, endsWith_append u ("@" ++ d)]
    simp
  · intro u sub d
    have hw : isWildcardPat ("*@" ++ d) = true := by
      simp [isWildcardPat, data_wildcard]
    simp only [patternMatches, hw, if_true, strDrop_wildcard]
    have hs : u ++ "@" ++ sub ++ "." ++ d = (u ++ "@" ++ sub) ++ ("." ++ d) := by
      rw [String.append_assoc]
    rw [hs, endsWith_append (u ++ "@" ++ sub) ("." ++ d)]
    simp
  · intro p a hw
    simp [patternMatches, hw]
  · intro p a hw
    simp [patternMatches, hw]

/-- C5 amended witness: concrete instances of the wildcard and literal
matching rules. -/
theorem c5_entity_matcher_amended_witness :
    patternMatches ("*@" ++ "acme.com") ("user" ++ "@" ++ "acme.com") = true ∧
    patternMatches ("*@" ++ "acme.com")
      ("user" ++ "@" ++ "mail" ++ "." ++ "acme.com") = true ∧
    patternMatches "billing@acme.com" "BILLING@Acme.com" =
      (lowerStr "BILLING@Acme.com" == lowerStr "billing@acme.com") :=
  ⟨c5_entity_matcher_amended.1 "user" "acme.com",
   c5_entity_matcher_amended.2.1 "user" "mail" "acme.com",
   c5_entity_matcher_amended.2.2.2.1 "billing@acme.com" "BILLING@Acme.com"
     (by decide)⟩

/-- C6: whatever the runtime behaviour of the fetcher and the PDF parser,
the archive always carries exactly one combined PDF and one combined JSON
per item plus one raw entry per successfully fetched attachment (a failed
fetch only removes its own raw entry), and when every source PDF fails to
load the combined document falls back to the base document with no
spliced page. -/
theorem c6_partial_failure :
    (∀ (env : JsEnv) (items : List Item),
      ((bundleEntries env items).filter entryIsCombinedPdf).length = items.length ∧
      ((bundleEntries env items).filter entryIsRaw).length =
        (items.map (fun it => (processAttachments env it).length)).sum) ∧
    (∀ (env : JsEnv) (item : Item) (atts : List DownloadedAttachment),
      (∀ b, env.pdfLoad b = none) →
      generateCombinedPdf env item atts = (generateBasePdf env item atts, [])) :=
  ⟨fun env items => bundleGo_counts env items [],
   fun env item atts h => combinedPdf_fallback env item atts h⟩

/-- C6 witness: with a PDF parser that rejects every buffer, the combined
document of the two-attachment fixture is exactly the base document with
no spliced page. -/
theorem c6_partial_failure_witness :
    generateCombinedPdf envNoPdf itemTwoAtt (processAttachments envNoPdf itemTwoAtt) =
      (generateBasePdf envNoPdf itemTwoAtt (processAttachments envNoPdf itemTwoAtt),
        []) :=
  c6_partial_failure.2 envNoPdf itemTwoAtt (processAttachments envNoPdf itemTwoAtt)
    (fun _ => rfl)

/-- C8 counterexample: sanitization is not idempotent — on 79 characters
`a` followed by a space and a `b`, the 80-character truncation leaves a
trailing underscore that a second application removes. -/
theorem c8_sanitize_not_idempotent :
    sanitizeFolderName (sanitizeFolderName longInput) ≠ sanitizeFolderName longInput ∧
    sanitizeFolderName longInput = String.mk (List.replicate 79 'a' ++ ['_']) ∧
    sanitizeFolderName (sanitizeFolderName longInput) =
      String.mk (List.replicate 79 'a') := by
  refine ⟨by decide, by decide, by decide⟩

/-- C8 amended: `sanitizeFolderName` is idempotent on every input of
length at most 80 — for such inputs no truncation occurs, so the result
is fully cleaned and a second application leaves it unchanged. -/
theorem c8_sanitize_idempotent_bounded (s : String) (h : s.length ≤ 80) :
    sanitizeFolderName (sanitizeFolderName s) = sanitizeFolderName s := by
  have hdata : s.data.length ≤ 80 := h
  by_cases he : (sanitizeChars s.data).isEmpty = true
  · have h1 : sanitizeFolderName s = "Unknown" := by
      simp [sanitizeFolderName, he]
    rw [h1]
    decide
  · have h1 : sanitizeFolderName s = String.mk (sanitizeChars s.data) := by
      simp [sanitizeFolderName, he]
    rw [h1]
    have hfix := sanitizeChars_idem s.data hdata
    simp only [sanitizeFolderName]
    rw [hfix]
    simp [he]

/-- C8 amended witness: idempotence evaluated on a short input. -/
theorem c8_sanitize_idempotent_bounded_witness :
    ("a b" : String).length ≤ 80 ∧
    sanitizeFolderName (sanitizeFolderName "a b") = sanitizeFolderName "a b" :=
  ⟨by decide, c8_sanitize_idempotent_bounded "a b" (by decide)⟩

/-- C10: the downloaded-attachment list is exactly the in-order
`filterMap` of the item's attachments over successful fetches (a fetch
that throws contributes nothing), and both the JSON record's
`attachments` array and the combined PDF's metadata attachment rows are
maps over precisely that list. -/
theorem c10_failed_fetch_omitted (env : JsEnv) (item : Item)
    (atts : List DownloadedAttachment) :
    processAttachments env item =
      item.attachments.filterMap (fun att =>
        (env.fetchAtt item.messageId att.id item.accountIndex).map
          (mkDownloaded item att)) ∧
    (generateJsonRecord env item atts).lookup "attachments" =
      some (JVal.arr (atts.map jsonAttObj)) ∧
    (generateBasePdf env item atts).attachmentRows =
      atts.map (fun a => (a.filename, a.size, attachmentBadge a)) := by
  refine ⟨processGo_filterMap env item item.attachments, ?_, rfl⟩
  rfl

end OmniSearch
